import Mathlib

/-!
Shallow embedding of `caikit/core/model_management/model_trainer_base.py`.

Python strings are modelled as `List Char` (Python indexes strings by code
point, so a list of characters is the faithful sequence model).  The module
uses `os.path.split` / `os.path.join` from `posixpath`, which are embedded
below following their CPython definitions, and the one-character delimiter
string `":"` (class attribute `ID_DELIMITER`) is modelled as a character.

`ReversibleHasher` lives in `caikit/core/toolkit/reversible_hasher.py`, which
is not part of the sources here; the theorems that need it are parametric in
the pair of functions, with the claims' hypotheses about them as explicit
assumptions, and a concrete stand-in modelled from the spec is provided for
evaluation.
-/

namespace Caikit

/-- A Python string, as a sequence of code points. -/
abbrev Str := List Char

/-- The POSIX path separator used by `posixpath.split` / `posixpath.join`. -/
def sep : Char := '/'

/-- `ModelFutureBase.ID_DELIMITER`, the one-character string `":"`. -/
def ID_DELIMITER : Char := ':'

/-- Python's substring test `sub in s`: `sub` occurs contiguously in `s`. -/
def substrOf (sub s : Str) : Bool := decide (sub <:+: s)

/-- `head.rstrip(sep)` from `posixpath.split`: drop trailing separators. -/
def rstripSep (l : Str) : Str := (l.reverse.dropWhile (fun c => c = sep)).reverse

/-- `head == sep * len(head)`: the string consists only of separators. -/
def allSep (l : Str) : Bool := l.all (fun c => c = sep)

/-- `b.startswith(sep)` from `posixpath.join`. -/
def startsWithSep : Str → Bool
  | [] => false
  | c :: _ => c = sep

/-- `path.endswith(sep)` from `posixpath.join`. -/
def endsWithSep (l : Str) : Bool := l.getLast? = some sep

/-- The tail `p[i:]` of `posixpath.split` with `i = p.rfind(sep) + 1`:
everything after the last separator, i.e. the reversed longest
separator-free suffix of `p`. -/
def ospTail (p : Str) : Str := (p.reverse.takeWhile (fun c => c ≠ sep)).reverse

/-- The raw head `p[:i]` of `posixpath.split`, before stripping. -/
def ospHead0 (p : Str) : Str := p.take (p.length - (ospTail p).length)

/-- `posixpath.split(p)`: `i = p.rfind(sep) + 1; head, tail = p[:i], p[i:]`,
then `if head and head != sep * len(head): head = head.rstrip(sep)`. -/
def ospSplit (p : Str) : Str × Str :=
  (if ospHead0 p ≠ [] ∧ allSep (ospHead0 p) = false then rstripSep (ospHead0 p)
   else ospHead0 p,
   ospTail p)

/-- One step of `posixpath.join`'s fold:
`if b.startswith(sep): path = b elif not path or path.endswith(sep):
path += b else: path += sep + b`. -/
def ospJoin2 (a b : Str) : Str :=
  if startsWithSep b then b
  else if a = [] ∨ endsWithSep a then a ++ b
  else a ++ sep :: b

/-- `ModelFutureBase._save_path_with_id(save_path, save_with_id, training_id)`:
`None` passes through; if `not save_with_id or training_id in save_path` the
path is returned unchanged; otherwise
`os.path.join(*(path_parts[:-1] + (training_id,) + path_parts[-1:]))`
with `path_parts = os.path.split(save_path)`, i.e. a three-argument join of
head, id and tail, which is the left-associated fold of `ospJoin2`. -/
def save_path_with_id (save_path : Option Str) (save_with_id : Bool)
    (training_id : Str) : Option Str :=
  match save_path with
  | none => none
  | some p =>
      if save_with_id = false ∨ substrOf training_id p = true then some p
      else
        let path_parts := ospSplit p
        some (ospJoin2 (ospJoin2 path_parts.1 training_id) path_parts.2)

/-- Python's `str.split(d)` for a one-character separator `d`: splits on
every occurrence, keeping empty fields, never returning an empty list. -/
def splitOnChar (d : Char) : Str → List Str
  | [] => [[]]
  | c :: rest =>
      if c = d then [] :: splitOnChar d rest
      else (c :: (splitOnChar d rest).headD []) :: (splitOnChar d rest).tail

/-- The composite id computed in `ModelFutureBase.__init__`:
`ID_DELIMITER.join([ReversibleHasher.hash(parent_name), training_id])`. -/
def futureId (hash : Str → Str) (parent_name training_id : Str) : Str :=
  hash parent_name ++ ID_DELIMITER :: training_id

/-- `ModelTrainerBase.get_trainer_name(training_id)`:
`ReversibleHasher.reverse_hash(training_id.split(ID_DELIMITER)[0])`.
`split` always yields at least one field, so `[0]` never fails; it is the
segment before the first delimiter (the whole string when there is none). -/
def get_trainer_name (reverse_hash : Str → Str) (training_id : Str) : Str :=
  reverse_hash ((splitOnChar ID_DELIMITER training_id).headD [])

/-- `ModelTrainerBase.TrainingStatus`: the five lifecycle states. -/
inductive TrainingStatus
  | QUEUED
  | RUNNING
  | COMPLETED
  | CANCELED
  | ERRORED
deriving DecidableEq

/-- `TrainingStatus.is_terminal`:
`self in [COMPLETED, CANCELED, ERRORED]`. -/
def TrainingStatus.is_terminal (s : TrainingStatus) : Bool :=
  decide (s ∈ [TrainingStatus.COMPLETED, TrainingStatus.CANCELED,
               TrainingStatus.ERRORED])

/-- ROT13 on ASCII letters, fixing every other character. -/
def rot13 (c : Char) : Char :=
  if 'a' ≤ c ∧ c ≤ 'z' then Char.ofNat ((c.toNat - 'a'.toNat + 13) % 26 + 'a'.toNat)
  else if 'A' ≤ c ∧ c ≤ 'Z' then Char.ofNat ((c.toNat - 'A'.toNat + 13) % 26 + 'A'.toNat)
  else c

/-- Modelled from the spec: `ReversibleHasher.hash` of
`caikit/core/toolkit/reversible_hasher.py`, which is not among the sources.
The spec describes a deterministic, stateless, bijective string transform,
"a reversible substitution" applied character-wise; it is modelled here as
the ROT13 substitution on letters. -/
def ReversibleHasher.hash (s : Str) : Str := s.map rot13

/-- Modelled from the spec: `ReversibleHasher.reverse_hash`, the inverse
substitution of `ReversibleHasher.hash` (ROT13 is its own inverse). -/
def ReversibleHasher.reverse_hash (s : Str) : Str := s.map rot13

end Caikit

namespace Caikit

/-! ### Helper lemmas -/

/-- When the condition of the early-return branch holds, the path is
returned unchanged. -/
theorem save_path_with_id_of_cond (p t : Str) (b : Bool)
    (h : b = false ∨ substrOf t p = true) :
    save_path_with_id (some p) b t = some p := by
  simp only [save_path_with_id, if_pos h]

/-- When the early-return condition fails, the split-and-join branch runs. -/
theorem save_path_with_id_of_not_cond (p t : Str) (b : Bool)
    (h : ¬(b = false ∨ substrOf t p = true)) :
    save_path_with_id (some p) b t =
      some (ospJoin2 (ospJoin2 (ospSplit p).1 t) (ospSplit p).2) := by
  simp only [save_path_with_id, if_neg h]

/-- Joining onto the empty path yields the other component. -/
theorem ospJoin2_nil_left (t : Str) : ospJoin2 [] t = t := by
  unfold ospJoin2
  split
  · rfl
  · rw [if_pos (Or.inl rfl), List.nil_append]

/-- Joining the empty component onto a non-empty path with no trailing
separator appends a separator. -/
theorem ospJoin2_nil_right (x : Str) (hx : x ≠ []) (he : endsWithSep x = false) :
    ospJoin2 x [] = x ++ [sep] := by
  unfold ospJoin2
  rw [if_neg (by simp [startsWithSep]), if_neg]
  rintro (h | h)
  · exact hx h
  · simp [he] at h

/-- The joined-on component is a suffix of the join. -/
theorem suffix_ospJoin2 (a t : Str) : t <:+ ospJoin2 a t := by
  unfold ospJoin2
  split
  · exact List.suffix_rfl
  · split
    · exact List.suffix_append a t
    · have h : a ++ sep :: t = (a ++ [sep]) ++ t := by simp
      rw [h]
      exact List.suffix_append (a ++ [sep]) t

/-- When the joined-on component does not start with a separator, the base
path is a prefix of the join. -/
theorem prefix_ospJoin2 (x c : Str) (hc : startsWithSep c = false) :
    x <+: ospJoin2 x c := by
  unfold ospJoin2
  rw [if_neg (by simp [hc])]
  split
  · exact List.prefix_append x c
  · exact List.prefix_append x (sep :: c)

/-- The tail of a POSIX split never begins with a separator. -/
theorem ospTail_startsWithSep (p : Str) :
    startsWithSep (ospTail p) = false := by
  unfold ospTail
  cases hrev : (p.reverse.takeWhile (fun c => c ≠ sep)).reverse with
  | nil => rfl
  | cons c r =>
      have hc : c ∈ p.reverse.takeWhile (fun c => c ≠ sep) := by
        rw [← List.mem_reverse, hrev]
        exact List.mem_cons_self c r
      have hcs := List.mem_takeWhile_imp hc
      simp only [decide_eq_true_eq] at hcs
      simp [startsWithSep, hcs]

/-- The training id occurs as a substring of the split-and-join result. -/
theorem substrOf_joined (p t : Str) :
    substrOf t (ospJoin2 (ospJoin2 (ospSplit p).1 t) (ospSplit p).2) = true := by
  have h1 : t <:+ ospJoin2 (ospSplit p).1 t := suffix_ospJoin2 _ t
  have h2 : ospJoin2 (ospSplit p).1 t <+:
      ospJoin2 (ospJoin2 (ospSplit p).1 t) (ospSplit p).2 :=
    prefix_ospJoin2 _ _ (ospTail_startsWithSep p)
  have h3 := h1.isInfix.trans h2.isInfix
  simpa [substrOf] using h3

/-- The tail of splitting a path with a trailing separator is empty. -/
theorem ospTail_concat_sep (q : Str) : ospTail (q ++ [sep]) = [] := by
  unfold ospTail
  rw [List.reverse_append]
  simp [List.takeWhile_cons]

/-- The raw head of splitting a path with a trailing separator is the
whole path. -/
theorem ospHead0_concat_sep (q : Str) : ospHead0 (q ++ [sep]) = q ++ [sep] := by
  unfold ospHead0
  rw [ospTail_concat_sep]
  simp

/-- Right-stripping separators from `q ++ [sep]` yields `q` when `q` has no
trailing separator. -/
theorem rstripSep_concat_sep (q : Str) (hq : endsWithSep q = false) :
    rstripSep (q ++ [sep]) = q := by
  have hdrop : q.reverse.dropWhile (fun c => c = sep) = q.reverse := by
    cases hq' : q.reverse with
    | nil => rfl
    | cons c r =>
        have hc : q.getLast? = some c := by
          rw [← List.head?_reverse, hq']
          rfl
        have hcs : ¬c = sep := by
          intro h
          subst h
          unfold endsWithSep at hq
          rw [hc] at hq
          simp at hq
        simp [List.dropWhile_cons, hcs]
  unfold rstripSep
  have h1 : (q ++ [sep]).reverse = sep :: q.reverse := by simp
  rw [h1, List.dropWhile_cons, if_pos (by simp), hdrop, List.reverse_reverse]

/-- A list ending in a non-empty list has that list's last element. -/
theorem endsWithSep_append (x t : Str) (ht : t ≠ []) :
    endsWithSep (x ++ t) = endsWithSep t := by
  unfold endsWithSep
  rw [List.getLast?_append_of_ne_nil x ht]

/-- A non-empty training id is not a substring of the empty path. -/
theorem substrOf_nil (t : Str) (h0 : t ≠ []) : substrOf t [] = false := by
  simp only [substrOf, decide_eq_false_iff_not]
  intro hinf
  exact h0 (List.sublist_nil.mp hinf.sublist)

/-- A training id that is not a substring is in particular non-empty. -/
theorem ne_nil_of_not_substrOf (t p : Str) (h : substrOf t p = false) :
    t ≠ [] := by
  intro h0
  subst h0
  simp [substrOf, List.nil_infix] at h

/-- The field before the first delimiter: `split(d)[0]` on `a ++ d :: b`
is `a` whenever `a` is delimiter-free. -/
theorem splitOnChar_headD_append (d : Char) (a b : Str) (h : d ∉ a) :
    (splitOnChar d (a ++ d :: b)).headD [] = a := by
  induction a with
  | nil => simp [splitOnChar]
  | cons c a ih =>
      simp only [List.mem_cons, not_or] at h
      have hcd : ¬c = d := fun hcd => h.1 hcd.symm
      simp only [List.cons_append, splitOnChar, if_neg hcd, List.headD_cons]
      exact congrArg (fun l => c :: l) (ih h.2)

/-- Splitting a delimiter-free string yields the one-field list. -/
theorem splitOnChar_no_delim (d : Char) (l : Str) (h : d ∉ l) :
    splitOnChar d l = [l] := by
  induction l with
  | nil => rfl
  | cons c rest ih =>
      simp only [List.mem_cons, not_or] at h
      have hcd : ¬c = d := fun hcd => h.1 hcd.symm
      simp only [splitOnChar, if_neg hcd, ih h.2, List.headD_cons, List.tail_cons]

/-! ### Claims -/

/-- C1: for every trainer instance name `n` and backend job id `j`, if
`reverse_hash` undoes `hash` and `hash n` is delimiter-free, then
`get_trainer_name` applied to the composite id built at `ModelFutureBase`
construction (`hash n ++ ":" ++ j`) returns `n`. -/
theorem get_trainer_name_roundtrip (hash reverse_hash : Str → Str) (n j : Str)
    (hinv : ∀ x, reverse_hash (hash x) = x)
    (hnod : ID_DELIMITER ∉ hash n) :
    get_trainer_name reverse_hash (futureId hash n j) = n := by
  unfold get_trainer_name futureId
  rw [splitOnChar_headD_append ID_DELIMITER (hash n) j hnod, hinv]

/-- Witness for C1 with the identity as the (invertible, delimiter-free)
hasher, `n = "tr1"`, `j = "job1"`. -/
theorem get_trainer_name_roundtrip_witness :
    get_trainer_name id (futureId id ("tr1".toList) ("job1".toList)) =
      "tr1".toList :=
  get_trainer_name_roundtrip id id ("tr1".toList) ("job1".toList)
    (fun _ => rfl) (by decide)

/-- C10: even when the backend job id `j` contains the delimiter, the split
takes exactly the segment before the first delimiter, so the first segment
of the composite id is `hash n` and the recovered name is `n`. -/
theorem get_trainer_name_delim_in_job (hash reverse_hash : Str → Str)
    (n j : Str)
    (hinv : ∀ x, reverse_hash (hash x) = x)
    (hnod : ID_DELIMITER ∉ hash n)
    (_hj : ID_DELIMITER ∈ j) :
    (splitOnChar ID_DELIMITER (futureId hash n j)).headD [] = hash n ∧
    get_trainer_name reverse_hash (futureId hash n j) = n := by
  refine ⟨?_, ?_⟩
  · exact splitOnChar_headD_append ID_DELIMITER (hash n) j hnod
  · unfold get_trainer_name futureId
    rw [splitOnChar_headD_append ID_DELIMITER (hash n) j hnod, hinv]

/-- Witness for C10 with the identity hasher, `n = "tr1"` and the
delimiter-containing job id `j = "a:b"`. -/
theorem get_trainer_name_delim_in_job_witness :
    (splitOnChar ID_DELIMITER
        (futureId id ("tr1".toList) ("a:b".toList))).headD [] =
      id ("tr1".toList) ∧
    get_trainer_name id (futureId id ("tr1".toList) ("a:b".toList)) =
      "tr1".toList :=
  get_trainer_name_delim_in_job id id ("tr1".toList) ("a:b".toList)
    (fun _ => rfl) (by decide) (by decide)

/-- C7 counterexample: on the delimiter-free id `"abc"`, `get_trainer_name`
does not fail: `split` yields the whole string as field `[0]` and the
(spec-modelled) decoder returns the string `"nop"`, a normal trainer name,
contradicting the claim that a missing delimiter is an error. -/
theorem get_trainer_name_missing_delim_counterexample :
    splitOnChar ID_DELIMITER ("abc".toList) = ["abc".toList] ∧
    get_trainer_name ReversibleHasher.reverse_hash ("abc".toList) =
      "nop".toList := by
  constructor
  · decide
  · decide

/-- C7 amended: on a composite id missing the delimiter, `get_trainer_name`
does not fail; the split yields the single field holding the entire id, and
the result is the decoder applied to the entire id. -/
theorem get_trainer_name_missing_delim (reverse_hash : Str → Str) (tid : Str)
    (h : ID_DELIMITER ∉ tid) :
    splitOnChar ID_DELIMITER tid = [tid] ∧
    get_trainer_name reverse_hash tid = reverse_hash tid := by
  refine ⟨splitOnChar_no_delim ID_DELIMITER tid h, ?_⟩
  unfold get_trainer_name
  rw [splitOnChar_no_delim ID_DELIMITER tid h, List.headD_cons]

/-- Witness for the amended C7 at the delimiter-free id `"xy"`. -/
theorem get_trainer_name_missing_delim_witness :
    splitOnChar ID_DELIMITER ("xy".toList) = ["xy".toList] ∧
    get_trainer_name ReversibleHasher.reverse_hash ("xy".toList) =
      ReversibleHasher.reverse_hash ("xy".toList) :=
  get_trainer_name_missing_delim ReversibleHasher.reverse_hash
    ("xy".toList) (by decide)

/-- C3: for every member of the five-member `TrainingStatus` enumeration,
`is_terminal` is true exactly on COMPLETED, CANCELED and ERRORED, and false
exactly on QUEUED and RUNNING. -/
theorem trainingStatus_is_terminal_characterisation (s : TrainingStatus) :
    (s.is_terminal = true ↔
       (s = TrainingStatus.COMPLETED ∨ s = TrainingStatus.CANCELED ∨
        s = TrainingStatus.ERRORED)) ∧
    (s.is_terminal = false ↔
       (s = TrainingStatus.QUEUED ∨ s = TrainingStatus.RUNNING)) := by
  cases s <;> exact ⟨by decide, by decide⟩

/-- C5: from an absent base path, the derived save path is absent,
whatever the flag and the training id. -/
theorem save_path_with_id_none (b : Bool) (t : Str) :
    save_path_with_id none b t = none := rfl

/-- C4: with a present base path, if `save_with_id` is false or the training
id already occurs as a substring of the base path, the path is returned
unchanged. -/
theorem save_path_with_id_unchanged (p t : Str) (b : Bool)
    (h : b = false ∨ substrOf t p = true) :
    save_path_with_id (some p) b t = some p :=
  save_path_with_id_of_cond p t b h

/-- Witness for C4 at `p = "/m/x"`, `b = false`, `t = "tid"`. -/
theorem save_path_with_id_unchanged_witness :
    save_path_with_id (some ("/m/x".toList)) false ("tid".toList) =
      some ("/m/x".toList) :=
  save_path_with_id_unchanged ("/m/x".toList) ("tid".toList) false (Or.inl rfl)

/-- C2: with `save_with_id` true, a base path with no trailing separator and
a training id that is not a substring of it, the result splits the path into
(parent, leaf) and joins parent, id and leaf, so the id becomes the segment
directly above the leaf; in particular
`_save_path_with_id("/models/my-model", True, "abc123:job7")`
is `"/models/abc123:job7/my-model"`. -/
theorem save_path_with_id_injects (p t : Str)
    (_hp : endsWithSep p = false) (ht : substrOf t p = false) :
    save_path_with_id (some p) true t =
      some (ospJoin2 (ospJoin2 (ospSplit p).1 t) (ospSplit p).2) ∧
    save_path_with_id (some ("/models/my-model".toList)) true
        ("abc123:job7".toList) =
      some ("/models/abc123:job7/my-model".toList) := by
  constructor
  · exact save_path_with_id_of_not_cond p t true (by simp [ht])
  · decide

/-- Witness for C2 at `p = "/models/my-model"`, `t = "abc123:job7"`. -/
theorem save_path_with_id_injects_witness :
    save_path_with_id (some ("/models/my-model".toList)) true
        ("abc123:job7".toList) =
      some (ospJoin2
        (ospJoin2 (ospSplit ("/models/my-model".toList)).1
          ("abc123:job7".toList))
        (ospSplit ("/models/my-model".toList)).2) :=
  (save_path_with_id_injects ("/models/my-model".toList)
    ("abc123:job7".toList) (by decide) (by decide)).1

/-- C6: save-path derivation is idempotent: re-deriving from its own result
with the same flag and id yields the same path, and deriving twice from the
same inputs yields equal results. -/
theorem save_path_with_id_idem (p : Option Str) (b : Bool) (t : Str) :
    save_path_with_id (save_path_with_id p b t) b t =
      save_path_with_id p b t ∧
    save_path_with_id p b t = save_path_with_id p b t := by
  refine ⟨?_, rfl⟩
  match p with
  | none => rfl
  | some q =>
      by_cases h : (b = false ∨ substrOf t q = true)
      · rw [save_path_with_id_of_cond q t b h, save_path_with_id_of_cond q t b h]
      · rw [save_path_with_id_of_not_cond q t b h]
        exact save_path_with_id_of_cond _ t b (Or.inr (substrOf_joined q t))

/-- C8 counterexample: for the base path `"a//"` (which ends in the
separator) and the id `"b"` (not a substring of it), the derived path is
`"a/b/"`, not `"a//b/"` = base path followed by the id and a separator:
the stripping of trailing separators in `os.path.split` collapses the
double separator, refuting the claimed form of the result. -/
theorem save_path_trailing_sep_counterexample :
    endsWithSep ("a//".toList) = true ∧
    substrOf ("b".toList) ("a//".toList) = false ∧
    save_path_with_id (some ("a//".toList)) true ("b".toList) =
      some ("a/b/".toList) ∧
    some ("a/b/".toList) ≠
      some (("a//".toList ++ "b".toList) ++ [sep]) := by
  refine ⟨by decide, by decide, by decide, by decide⟩

/-- C8 amended: for a base path `q ++ [sep]` ending in the separator — whose
leaf is therefore empty — with an id `t` that is not a substring of it,
provided the path ends in exactly one separator (or is entirely separators)
and `t` neither starts nor ends with the separator, the result appends `t`
and a trailing separator: `base ++ t ++ [sep]`. -/
theorem save_path_trailing_sep (q t : Str)
    (hone : allSep (q ++ [sep]) = true ∨ endsWithSep q = false)
    (ht1 : startsWithSep t = false) (ht2 : endsWithSep t = false)
    (hni : substrOf t (q ++ [sep]) = false) :
    save_path_with_id (some (q ++ [sep])) true t =
      some ((q ++ [sep]) ++ t ++ [sep]) := by
  have ht0 : t ≠ [] := ne_nil_of_not_substrOf t (q ++ [sep]) hni
  rw [save_path_with_id_of_not_cond _ _ _ (by simp [hni])]
  have hsnd : (ospSplit (q ++ [sep])).2 = [] := ospTail_concat_sep q
  by_cases hall : allSep (q ++ [sep]) = true
  · have hfst : (ospSplit (q ++ [sep])).1 = q ++ [sep] := by
      unfold ospSplit
      rw [ospHead0_concat_sep]
      simp [hall]
    rw [hfst, hsnd]
    have hj1 : ospJoin2 (q ++ [sep]) t = (q ++ [sep]) ++ t := by
      unfold ospJoin2
      rw [if_neg (by simp [ht1]), if_pos]
      right
      unfold endsWithSep
      rw [List.getLast?_append_of_ne_nil q (by simp)]
      simp
    rw [hj1, ospJoin2_nil_right _ (by simp) (by rw [endsWithSep_append _ t ht0, ht2])]
  · have hq : endsWithSep q = false := by
      rcases hone with h | h
      · exact absurd h hall
      · exact h
    have hq0 : q ≠ [] := by
      intro h0
      subst h0
      exact hall (by simp [allSep, sep])
    have hfst : (ospSplit (q ++ [sep])).1 = q := by
      unfold ospSplit
      rw [ospHead0_concat_sep]
      rw [if_pos ⟨by simp, by simpa using hall⟩]
      exact rstripSep_concat_sep q hq
    rw [hfst, hsnd]
    have hj1 : ospJoin2 q t = q ++ sep :: t := by
      unfold ospJoin2
      rw [if_neg (by simp [ht1]), if_neg]
      rintro (h | h)
      · exact hq0 h
      · simp [hq] at h
    rw [hj1]
    have hx : q ++ sep :: t = (q ++ [sep]) ++ t := by simp
    rw [ospJoin2_nil_right _ (by simp) (by rw [hx, endsWithSep_append _ t ht0, ht2])]
    rw [hx]

/-- Witness for the amended C8 at `q = "/models"`, `t = "abc"`:
the result on base `"/models/"` is `"/models/abc/"`. -/
theorem save_path_trailing_sep_witness :
    save_path_with_id (some ("/models".toList ++ [sep])) true ("abc".toList) =
      some (("/models".toList ++ [sep]) ++ "abc".toList ++ [sep]) :=
  save_path_trailing_sep ("/models".toList) ("abc".toList)
    (by decide) (by decide) (by decide) (by decide)

/-- C9 counterexample: for the empty base path and the id `"b/"` (which
ends in the separator), the derived path is `"b/"` itself, not `"b//"` =
the id followed by the separator, refuting the claimed form of the result
for ids with a trailing separator; the absent-path short-circuit indeed
does not apply (the result is not `none` either). -/
theorem save_path_empty_base_counterexample :
    save_path_with_id (some []) true ("b/".toList) = some ("b/".toList) ∧
    some ("b/".toList) ≠ some ("b/".toList ++ [sep]) ∧
    save_path_with_id (some []) true ("b/".toList) ≠ none := by
  refine ⟨by decide, by decide, by decide⟩

/-- C9 amended: for the empty base path with `save_with_id` true and a
non-empty id `t` with no trailing separator, the result is `t ++ [sep]` —
in particular it is neither absent nor the empty path unchanged: the
absent-path short-circuit applies only to `None`, not to the empty string. -/
theorem save_path_empty_base (t : Str) (h0 : t ≠ [])
    (h1 : endsWithSep t = false) :
    save_path_with_id (some []) true t = some (t ++ [sep]) := by
  have hni : substrOf t [] = false := substrOf_nil t h0
  rw [save_path_with_id_of_not_cond _ _ _ (by simp [hni])]
  have hsnd : (ospSplit ([] : Str)).2 = [] := rfl
  have hfst : (ospSplit ([] : Str)).1 = [] := rfl
  rw [hfst, hsnd, ospJoin2_nil_left, ospJoin2_nil_right t h0 h1]

/-- Witness for the amended C9 at `t = "tid"`: the result is `"tid/"`. -/
theorem save_path_empty_base_witness :
    save_path_with_id (some []) true ("tid".toList) =
      some ("tid".toList ++ [sep]) :=
  save_path_empty_base ("tid".toList) (by decide) (by decide)

end Caikit
